import Mathlib

/-!
Shallow embedding of the multi-part QR chunking / framing / rendering codec of
`base-os` (`src/ui/tui/src/qr_generator.cpp` and its header).  Machine strings
are modelled as `List Char`, byte vectors as `List Nat` (each entry < 256 where
the code guarantees it), and C++ exceptions as `Option` (`none` = thrown).
-/

/-- A character accepted as a hexadecimal digit by `strtoul` with base 16. -/
def isHexDigitC (c : Char) : Bool :=
  ('0' ≤ c && c ≤ '9') || ('a' ≤ c && c ≤ 'f') || ('A' ≤ c && c ≤ 'F')

/-- Numeric value of a hexadecimal digit character. -/
def hexDigitVal (c : Char) : Nat :=
  if '0' ≤ c ∧ c ≤ '9' then c.toNat - '0'.toNat
  else if 'a' ≤ c ∧ c ≤ 'f' then c.toNat - 'a'.toNat + 10
  else if 'A' ≤ c ∧ c ≤ 'F' then c.toNat - 'A'.toNat + 10
  else 0

/-- Whitespace in the default C locale, as skipped by `strtoul`. -/
def isSpaceChar (c : Char) : Bool :=
  c = ' ' || c = '\t' || c = '\n' || c = '\x0b' || c = '\x0c' || c = '\r'

/-- `static_cast<uint8_t>(std::stoul(byteString, nullptr, 16))` on a two-character
string, as invoked by `hex_to_bytes` (qr_generator.cpp:26-27).  `strtoul` skips
leading whitespace, accepts an optional sign, then parses the longest prefix of
hexadecimal digits (a bare `0x`/`0X` with no digit after it parses as the single
digit `0`); it throws `invalid_argument` (`none`) only when no digit at all is
consumed.  A parsed value is finally truncated to `uint8_t` (`% 256`); for a
negative sign `strtoul` returns the two's-complement wraparound of the value. -/
def stoul16_pair (a b : Char) : Option Nat :=
  if isHexDigitC a then
    some (if isHexDigitC b then (hexDigitVal a * 16 + hexDigitVal b) % 256
          else hexDigitVal a)
  else if isSpaceChar a || a = '+' then
    if isHexDigitC b then some (hexDigitVal b) else none
  else if a = '-' then
    if isHexDigitC b then some ((256 - hexDigitVal b) % 256) else none
  else none

/-- The conversion loop of `hex_to_bytes` (qr_generator.cpp:25-29): consume the
string two characters at a time; a throwing `stoul` aborts the whole call. -/
def pairBytes : List Char → Option (List Nat)
  | [] => some []
  | [_] => none
  | a :: b :: rest =>
    match stoul16_pair a b with
    | none => none
    | some v =>
      match pairBytes rest with
      | none => none
      | some vs => some (v :: vs)

/-- `app::hex_to_bytes` (qr_generator.cpp:9-32): empty input returns an empty
byte vector; a leading lowercase `"0x"` is stripped; an odd remaining length
throws; otherwise each character pair is converted via `stoul` base 16. -/
def hex_to_bytes (hex : List Char) : Option (List Nat) :=
  if hex = [] then some []
  else if 2 ≤ hex.length ∧ hex.take 2 = ['0', 'x'] then
    if (hex.drop 2).length % 2 ≠ 0 then none
    else pairBytes (hex.drop 2)
  else if hex.length % 2 ≠ 0 then none
  else pairBytes hex

/-- `app::QRCode` (qr_generator.hpp:13-27) with C++ member defaults, plus one
ghost field `frame`: the exact byte sequence this Symbol's producer handed to
the external matrix encoder (the C++ passes those bytes to `qrcodegen` and then
discards them; recording them lets round-trip properties be stated). -/
structure QRCode where
  modules : List (List Bool) := []
  size : Nat := 0
  part : Nat := 1
  total_parts : Nat := 1
  cached_ascii : String := ""
  frame : List Nat := []
deriving Repr, DecidableEq

/-- A default-constructed `QRCode`, with the C++ member initialisers. -/
instance : Inhabited QRCode := ⟨{}⟩

/-- `modules[y][x]`; out-of-range reads (undefined behaviour in C++, never
exercised on well-formed grids) default to `false`. -/
def moduleAt (q : QRCode) (y x : Nat) : Bool :=
  (q.modules.getD y []).getD x false

/-- One module of `toRobustAscii`: `"##"` or two spaces (qr_generator.cpp:38-39). -/
def robustCell (b : Bool) : List Char := if b then ['#', '#'] else [' ', ' ']

/-- One quiet-zone line of `toRobustAscii` (qr_generator.cpp:42-49). -/
def robustBorderRow (size : Nat) : List Char :=
  ((List.range (size + 2 * 4)).map (fun _ => [' ', ' '])).flatten ++ ['\n']

/-- One module line of `toRobustAscii` (qr_generator.cpp:53-60). -/
def robustContentRow (q : QRCode) (y : Nat) : List Char :=
  ((List.range 4).map (fun _ => [' ', ' '])).flatten
    ++ ((List.range q.size).map (fun x => robustCell (moduleAt q y x))).flatten
    ++ ((List.range 4).map (fun _ => [' ', ' '])).flatten
    ++ ['\n']

/-- The full character stream built by `toRobustAscii` on a non-empty grid. -/
def robustChars (q : QRCode) : List Char :=
  ((List.range 4).map (fun _ => robustBorderRow q.size)).flatten
    ++ ((List.range q.size).map (fun y => robustContentRow q y)).flatten
    ++ ((List.range 4).map (fun _ => robustBorderRow q.size)).flatten

/-- `QRCode::toRobustAscii` (qr_generator.cpp:34-65). -/
def toRobustAscii (q : QRCode) : String :=
  if q.modules = [] then "(No QR data)" else String.mk (robustChars q)

/-- One module of `toCompactAscii`: one full-block glyph or one space
(qr_generator.cpp:71-72). -/
def compactCell (b : Bool) : List Char := if b then ['█'] else [' ']

/-- One quiet-zone line of `toCompactAscii` (qr_generator.cpp:75-82). -/
def compactBorderRow (size : Nat) : List Char :=
  ((List.range (size + 2 * 2)).map (fun _ => [' '])).flatten ++ ['\n']

/-- One module line of `toCompactAscii` (qr_generator.cpp:86-93). -/
def compactContentRow (q : QRCode) (y : Nat) : List Char :=
  ((List.range 2).map (fun _ => [' '])).flatten
    ++ ((List.range q.size).map (fun x => compactCell (moduleAt q y x))).flatten
    ++ ((List.range 2).map (fun _ => [' '])).flatten
    ++ ['\n']

/-- The full character stream built by `toCompactAscii` on a non-empty grid. -/
def compactChars (q : QRCode) : List Char :=
  ((List.range 2).map (fun _ => compactBorderRow q.size)).flatten
    ++ ((List.range q.size).map (fun y => compactContentRow q y)).flatten
    ++ ((List.range 2).map (fun _ => compactBorderRow q.size)).flatten

/-- One character of `toHalfBlockAscii`, covering two vertically adjacent
modules (qr_generator.cpp:124-132). -/
def halfCell (top bottom : Bool) : Char :=
  if top && bottom then '█'
  else if top then '▀'
  else if bottom then '▄'
  else ' '

/-- One quiet-zone line of `toHalfBlockAscii` (qr_generator.cpp:114-116). -/
def halfBorderRow (size : Nat) : List Char :=
  List.replicate (size + 1 * 2) ' ' ++ ['\n']

/-- One output line of `toHalfBlockAscii`, rendering module rows `2*k` and
`2*k+1` (qr_generator.cpp:118-135); the bottom row defaults to white when
`2*k+1` runs past the grid (qr_generator.cpp:122). -/
def halfContentRow (q : QRCode) (k : Nat) : List Char :=
  [' ']
    ++ (List.range q.size).map (fun x =>
        halfCell (moduleAt q (2 * k) x)
          (if 2 * k + 1 < q.size then moduleAt q (2 * k + 1) x else false))
    ++ [' ', '\n']

/-- The full character stream built by `toHalfBlockAscii` on a non-empty grid;
the `y += 2` loop performs `(size + 1) / 2` iterations. -/
def halfChars (q : QRCode) : List Char :=
  ((List.range 1).map (fun _ => halfBorderRow q.size)).flatten
    ++ ((List.range ((q.size + 1) / 2)).map (fun k => halfContentRow q k)).flatten
    ++ ((List.range 1).map (fun _ => halfBorderRow q.size)).flatten

/-- `QRCode::toCompactAscii` (qr_generator.cpp:67-98). -/
def toCompactAscii (q : QRCode) : String :=
  if q.modules = [] then "(No QR data)" else String.mk (compactChars q)

/-- `QRCode::toHalfBlockAscii` (qr_generator.cpp:100-144): a non-empty cache is
returned as-is; the sentinel check comes second; otherwise the half-block
stream is produced (and stored into `cached_ascii`, which this pure model
returns without the store). -/
def toHalfBlockAscii (q : QRCode) : String :=
  if q.cached_ascii ≠ "" then q.cached_ascii
  else if q.modules = [] then "(No QR data)"
  else String.mk (halfChars q)

/-- Result of a successful run of the external symbol encoder: the module grid
and its dimension, as read back by `getSize`/`getModule`. -/
structure EncodedMatrix where
  size : Nat
  modules : List (List Bool)
deriving Repr, DecidableEq

/-- The external QR symbol encoder (`qrcodegen::QrCode::encodeSegments`, vendored
outside `src/`); the spec treats it as a collaborator with contract
`encode(bytes, ecc) -> (modules, size) | EncodeError`.  It is a parameter of the
embedding; `none` models a thrown exception.  The error-correction level is
fixed by the caller, so it is folded into the function. -/
abbrev Encoder := List Nat → Option EncodedMatrix

/-- `app::GenerateQR` (qr_generator.cpp:146-172): try the encoder; on success
copy size and grid, on any exception leave the default object and set
`size = 0`. -/
def GenerateQR (enc : Encoder) (data : List Nat) : QRCode :=
  match enc data with
  | some mat => { size := mat.size, modules := mat.modules, frame := data }
  | none => { size := 0, frame := data }

/-- The positional header `"P" + (i+1) + "/" + num_parts + ":"` as bytes
(qr_generator.cpp:211-212). -/
def headerBytes (part total : Nat) : List Nat :=
  (("P" ++ Nat.repr part ++ "/" ++ Nat.repr total ++ ":").data).map Char.toNat

/-- The `i`-th payload slice: `data[start, start + min(max_length, size-start))`
(qr_generator.cpp:214-220). -/
def chunkSlice (data : List Nat) (m i : Nat) : List Nat :=
  (data.drop (i * m)).take (min m (data.length - i * m))

/-- The framed bytes handed to the encoder for chunk `i`: header plus slice
(qr_generator.cpp:222-224). -/
def chunkFrame (data : List Nat) (m n i : Nat) : List Nat :=
  headerBytes (i + 1) n ++ chunkSlice data m i

/-- One iteration body of the chunk loop (qr_generator.cpp:226-254): encode the
framed chunk; on success keep grid and size, on exception push a sentinel with
`size = 0` and an empty grid; either way `part = i+1`, `total_parts = n`. -/
def mkChunkSym (enc : Encoder) (data : List Nat) (m n i : Nat) : QRCode :=
  match enc (chunkFrame data m n i) with
  | some mat =>
    { modules := mat.modules, size := mat.size, part := i + 1, total_parts := n,
      frame := chunkFrame data m n i }
  | none =>
    { modules := [], size := 0, part := i + 1, total_parts := n,
      frame := chunkFrame data m n i }

/-- The chunk loop of `GenerateQRs` (qr_generator.cpp:210-255): `rem` iterations
remain, `i` is the current index; the `start >= data.size()` break
(qr_generator.cpp:216-218) ends the loop early. -/
def genLoop (enc : Encoder) (data : List Nat) (m n : Nat) : Nat → Nat → List QRCode
  | 0, _ => []
  | rem + 1, i =>
    if data.length ≤ i * m then []
    else mkChunkSym enc data m n i :: genLoop enc data m n rem (i + 1)

def MAX_TOTAL_SIZE : Nat := 100000

def MAX_QR_PARTS : Nat := 1000

def MIN_CHUNK_SIZE : Nat := 10

/-- `app::GenerateQRs` (qr_generator.cpp:179-258): reject empty or oversized
payloads; clamp the chunk length up to `MIN_CHUNK_SIZE`; a payload that fits in
one chunk is encoded raw and kept only if the encode succeeded; otherwise split
into `ceil(size / max_length)` framed chunks, rejecting more than
`MAX_QR_PARTS`. -/
def GenerateQRs (enc : Encoder) (data : List Nat) (max_length : Nat) : List QRCode :=
  if data = [] ∨ MAX_TOTAL_SIZE < data.length then []
  else if data.length ≤ max max_length MIN_CHUNK_SIZE then
    if 0 < (GenerateQR enc data).size then
      [{ GenerateQR enc data with part := 1, total_parts := 1 }]
    else []
  else if MAX_QR_PARTS <
      (data.length + max max_length MIN_CHUNK_SIZE - 1) / max max_length MIN_CHUNK_SIZE then
    []
  else
    genLoop enc data (max max_length MIN_CHUNK_SIZE)
      ((data.length + max max_length MIN_CHUNK_SIZE - 1) / max max_length MIN_CHUNK_SIZE)
      ((data.length + max max_length MIN_CHUNK_SIZE - 1) / max max_length MIN_CHUNK_SIZE) 0

/-- The bytes a scanner reads from one Symbol, with its positional header
stripped: a lone Symbol (`total_parts = 1`) is unframed, a multi-part Symbol
drops its `P<part>/<total>:` prefix (spec §6). -/
def strippedPayload (q : QRCode) : List Nat :=
  if q.total_parts ≤ 1 then q.frame
  else q.frame.drop (headerBytes q.part q.total_parts).length

/-- An always-succeeding stub encoder, used to instantiate theorems. -/
def encSome : Encoder := fun _ => some ⟨1, [[true]]⟩

/-- An always-throwing stub encoder, used to instantiate theorems. -/
def encFail : Encoder := fun _ => none

/-- A 1×1 all-black grid, standing in for a successfully encoded Symbol. -/
def sampleSym : QRCode := { modules := [[true]], size := 1 }

theorem length_flatten_map {α : Type} (l : List α) (f : α → List Char) (c : Nat)
    (h : ∀ x ∈ l, (f x).length = c) :
    ((l.map f).flatten).length = l.length * c := by
  induction l with
  | nil => simp
  | cons a t ih =>
    simp only [List.map_cons, List.flatten_cons, List.length_append, List.length_cons]
    rw [h a (by simp), ih (fun x hx => h x (by simp [hx]))]
    ring

theorem string_mk_length (l : List Char) : (String.mk l).length = l.length := rfl

theorem robustBorderRow_length (s : Nat) :
    (robustBorderRow s).length = 2 * s + 17 := by
  have h1 : (((List.range (s + 2 * 4)).map (fun _ => [' ', ' '])).flatten).length
      = (List.range (s + 2 * 4)).length * 2 :=
    length_flatten_map _ _ _ (fun _ _ => rfl)
  unfold robustBorderRow
  rw [List.length_append, h1]
  simp only [List.length_range, List.length_cons, List.length_nil]
  omega

theorem robustContentRow_length (q : QRCode) (y : Nat) :
    (robustContentRow q y).length = 2 * q.size + 17 := by
  have h1 : (((List.range 4).map (fun _ => [' ', ' '])).flatten).length
      = (List.range 4).length * 2 :=
    length_flatten_map _ _ _ (fun _ _ => rfl)
  have h2 : (((List.range q.size).map
        (fun x => robustCell (moduleAt q y x))).flatten).length
      = (List.range q.size).length * 2 :=
    length_flatten_map _ _ _ (fun x _ => by unfold robustCell; split <;> rfl)
  unfold robustContentRow
  rw [List.length_append, List.length_append, List.length_append, h1, h2]
  simp only [List.length_range, List.length_cons, List.length_nil]
  omega

theorem robustChars_length (q : QRCode) :
    (robustChars q).length = (q.size + 8) * (2 * q.size + 17) := by
  have h1 : (((List.range 4).map (fun _ => robustBorderRow q.size)).flatten).length
      = (List.range 4).length * (2 * q.size + 17) :=
    length_flatten_map _ _ _ (fun _ _ => robustBorderRow_length q.size)
  have h2 : (((List.range q.size).map (fun y => robustContentRow q y)).flatten).length
      = (List.range q.size).length * (2 * q.size + 17) :=
    length_flatten_map _ _ _ (fun y _ => robustContentRow_length q y)
  unfold robustChars
  rw [List.length_append, List.length_append, h1, h2]
  simp only [List.length_range]
  ring

theorem compactBorderRow_length (s : Nat) :
    (compactBorderRow s).length = s + 5 := by
  have h1 : (((List.range (s + 2 * 2)).map (fun _ => [' '])).flatten).length
      = (List.range (s + 2 * 2)).length * 1 :=
    length_flatten_map _ _ _ (fun _ _ => rfl)
  unfold compactBorderRow
  rw [List.length_append, h1]
  simp only [List.length_range, List.length_cons, List.length_nil]
  omega

theorem compactContentRow_length (q : QRCode) (y : Nat) :
    (compactContentRow q y).length = q.size + 5 := by
  have h1 : (((List.range 2).map (fun _ => [' '])).flatten).length
      = (List.range 2).length * 1 :=
    length_flatten_map _ _ _ (fun _ _ => rfl)
  have h2 : (((List.range q.size).map
        (fun x => compactCell (moduleAt q y x))).flatten).length
      = (List.range q.size).length * 1 :=
    length_flatten_map _ _ _ (fun x _ => by unfold compactCell; split <;> rfl)
  unfold compactContentRow
  rw [List.length_append, List.length_append, List.length_append, h1, h2]
  simp only [List.length_range, List.length_cons, List.length_nil]
  omega

theorem compactChars_length (q : QRCode) :
    (compactChars q).length = (q.size + 4) * (q.size + 5) := by
  have h1 : (((List.range 2).map (fun _ => compactBorderRow q.size)).flatten).length
      = (List.range 2).length * (q.size + 5) :=
    length_flatten_map _ _ _ (fun _ _ => compactBorderRow_length q.size)
  have h2 : (((List.range q.size).map (fun y => compactContentRow q y)).flatten).length
      = (List.range q.size).length * (q.size + 5) :=
    length_flatten_map _ _ _ (fun y _ => compactContentRow_length q y)
  unfold compactChars
  rw [List.length_append, List.length_append, h1, h2]
  simp only [List.length_range]
  ring

theorem halfBorderRow_length (s : Nat) :
    (halfBorderRow s).length = s + 3 := by
  unfold halfBorderRow
  simp

theorem halfContentRow_length (q : QRCode) (k : Nat) :
    (halfContentRow q k).length = q.size + 3 := by
  unfold halfContentRow
  simp only [List.length_append, List.length_map, List.length_range,
    List.length_cons, List.length_nil]
  omega

theorem halfChars_length (q : QRCode) :
    (halfChars q).length = ((q.size + 1) / 2 + 2) * (q.size + 3) := by
  have h1 : (((List.range 1).map (fun _ => halfBorderRow q.size)).flatten).length
      = (List.range 1).length * (q.size + 3) :=
    length_flatten_map _ _ _ (fun _ _ => halfBorderRow_length q.size)
  have h2 : (((List.range ((q.size + 1) / 2)).map
        (fun k => halfContentRow q k)).flatten).length
      = (List.range ((q.size + 1) / 2)).length * (q.size + 3) :=
    length_flatten_map _ _ _ (fun k _ => halfContentRow_length q k)
  unfold halfChars
  rw [List.length_append, List.length_append, h1, h2]
  simp only [List.length_range]
  ring

/-- C8: each of the three renderers, applied to a sentinel Symbol
(`size = 0`, empty module grid, cache still unset), returns the fixed
placeholder `"(No QR data)"` instead of drawing a grid. -/
theorem c8_sentinel_placeholder (q : QRCode) (_hsz : q.size = 0)
    (hmod : q.modules = []) (hcache : q.cached_ascii = "") :
    toRobustAscii q = "(No QR data)" ∧ toCompactAscii q = "(No QR data)" ∧
      toHalfBlockAscii q = "(No QR data)" := by
  refine ⟨?_, ?_, ?_⟩
  · rw [toRobustAscii, if_pos hmod]
  · rw [toCompactAscii, if_pos hmod]
  · rw [toHalfBlockAscii, if_neg (by simp [hcache]), if_pos hmod]

theorem c8_sentinel_placeholder_witness :
    toRobustAscii (default : QRCode) = "(No QR data)" ∧
      toCompactAscii (default : QRCode) = "(No QR data)" ∧
      toHalfBlockAscii (default : QRCode) = "(No QR data)" :=
  c8_sentinel_placeholder default rfl rfl rfl

/-- C9: for a well-formed Symbol with `size > 0` (grid of `size` rows, render
cache not yet populated), the Compact rendering and the Half-block rendering
are both strictly shorter than the Robust rendering. -/
theorem c9_render_size_ordering (q : QRCode) (hs : 0 < q.size)
    (hwf : q.modules.length = q.size) (hcache : q.cached_ascii = "") :
    (toCompactAscii q).length < (toRobustAscii q).length ∧
      (toHalfBlockAscii q).length < (toRobustAscii q).length := by
  have hmod : q.modules ≠ [] := by
    intro h
    rw [h] at hwf
    simp at hwf
    omega
  have hc : ¬q.cached_ascii ≠ "" := by simp [hcache]
  rw [toCompactAscii, toRobustAscii, toHalfBlockAscii,
    if_neg hmod, if_neg hmod, if_neg hc, if_neg hmod]
  simp only [string_mk_length]
  rw [robustChars_length, compactChars_length, halfChars_length]
  constructor
  · nlinarith [hs]
  · have h2 : ((q.size + 1) / 2 + 2) * (q.size + 3) ≤ (q.size + 2) * (q.size + 3) :=
      Nat.mul_le_mul_right _ (by omega)
    have h3 : (q.size + 2) * (q.size + 3) < (q.size + 8) * (2 * q.size + 17) := by
      nlinarith [hs]
    exact lt_of_le_of_lt h2 h3

theorem c9_render_size_ordering_witness :
    (toCompactAscii sampleSym).length < (toRobustAscii sampleSym).length ∧
      (toHalfBlockAscii sampleSym).length < (toRobustAscii sampleSym).length :=
  c9_render_size_ordering sampleSym (by decide) rfl rfl

theorem mul_lt_of_lt_ceilDiv (len m j : Nat) (hm : 0 < m)
    (hj : j < (len + m - 1) / m) : j * m < len := by
  have h1 : j + 1 ≤ (len + m - 1) / m := hj
  have h2 : (j + 1) * m ≤ ((len + m - 1) / m) * m := Nat.mul_le_mul_right m h1
  have h3 : ((len + m - 1) / m) * m ≤ len + m - 1 := Nat.div_mul_le_self _ _
  have h4 : (j + 1) * m = j * m + m := by ring
  omega

theorem le_ceilDiv_mul (len m : Nat) (hm : 0 < m) :
    len ≤ ((len + m - 1) / m) * m := by
  have h := Nat.div_add_mod (len + m - 1) m
  have h2 := Nat.mod_lt (len + m - 1) hm
  have h3 : ((len + m - 1) / m) * m = m * ((len + m - 1) / m) := Nat.mul_comm _ _
  omega

theorem one_le_ceilDiv (len m : Nat) (hm : 0 < m) (h : 0 < len) :
    1 ≤ (len + m - 1) / m := by
  rw [Nat.le_div_iff_mul_le hm]
  omega

theorem two_le_ceilDiv (len m : Nat) (hm : 0 < m) (h : m < len) :
    2 ≤ (len + m - 1) / m := by
  rw [Nat.le_div_iff_mul_le hm]
  omega

theorem mkChunkSym_part (enc : Encoder) (data : List Nat) (m n i : Nat) :
    (mkChunkSym enc data m n i).part = i + 1 := by
  unfold mkChunkSym
  cases enc (chunkFrame data m n i) <;> rfl

theorem mkChunkSym_total (enc : Encoder) (data : List Nat) (m n i : Nat) :
    (mkChunkSym enc data m n i).total_parts = n := by
  unfold mkChunkSym
  cases enc (chunkFrame data m n i) <;> rfl

theorem mkChunkSym_frame (enc : Encoder) (data : List Nat) (m n i : Nat) :
    (mkChunkSym enc data m n i).frame = chunkFrame data m n i := by
  unfold mkChunkSym
  cases enc (chunkFrame data m n i) <;> rfl

theorem mkChunkSym_fail (enc : Encoder) (data : List Nat) (m n i : Nat)
    (h : enc (chunkFrame data m n i) = none) :
    (mkChunkSym enc data m n i).size = 0 ∧ (mkChunkSym enc data m n i).modules = [] := by
  unfold mkChunkSym
  rw [h]
  exact ⟨rfl, rfl⟩

theorem genLoop_eq_map (enc : Encoder) (data : List Nat) (m n : Nat) :
    ∀ (rem i : Nat), (∀ j, i ≤ j → j < i + rem → j * m < data.length) →
      genLoop enc data m n rem i = (List.range' i rem).map (mkChunkSym enc data m n) := by
  intro rem
  induction rem with
  | zero => intro i _; rfl
  | succ rem ih =>
    intro i h
    rw [genLoop]
    rw [if_neg (by have := h i le_rfl (by omega); omega)]
    rw [ih (i + 1) (fun j hj1 hj2 => h j (by omega) (by omega)), List.range'_succ,
      List.map_cons]

theorem take_min_length {α : Type} (t : List α) (m : Nat) :
    t.take (min m t.length) = t.take m := by
  rcases Nat.le_total m t.length with h | h
  · rw [Nat.min_eq_left h]
  · rw [Nat.min_eq_right h, List.take_length, List.take_of_length_le h]

theorem chunkSlice_eq (data : List Nat) (m i : Nat) :
    chunkSlice data m i = (data.drop (i * m)).take m := by
  unfold chunkSlice
  have h : data.length - i * m = (data.drop (i * m)).length := by simp
  rw [h, take_min_length]

theorem flatten_chunks (m : Nat) :
    ∀ (n : Nat) (l : List Nat), l.length ≤ n * m →
      ((List.range n).map (fun i => (l.drop (i * m)).take m)).flatten = l := by
  intro n
  induction n with
  | zero =>
    intro l h
    simp only [Nat.zero_mul, Nat.le_zero] at h
    have hl : l = [] := List.length_eq_zero.mp h
    simp [hl]
  | succ n ih =>
    intro l h
    rw [List.range_succ_eq_map]
    simp only [List.map_cons, List.map_map, List.flatten_cons, Nat.zero_mul,
      List.drop_zero, Function.comp_def]
    have key : ∀ i : Nat,
        (l.drop (Nat.succ i * m)).take m = (((l.drop m).drop (i * m)).take m) := by
      intro i
      have harg : Nat.succ i * m = m + i * m := by rw [Nat.succ_mul]; omega
      rw [List.drop_drop, harg]
    have hmap : (List.range n).map (fun i => (l.drop (Nat.succ i * m)).take m)
        = (List.range n).map (fun i => (((l.drop m).drop (i * m)).take m)) :=
      List.map_congr_left (fun i _ => key i)
    rw [hmap]
    have hlen : (l.drop m).length ≤ n * m := by
      have hs : (n + 1) * m = n * m + m := by ring
      simp only [List.length_drop]
      omega
    rw [ih (l.drop m) hlen]
    simp

theorem chunkSlices_flatten (data : List Nat) (m n : Nat)
    (hlen : data.length ≤ n * m) :
    ((List.range n).map (fun i => chunkSlice data m i)).flatten = data := by
  rw [List.map_congr_left (fun i _ => chunkSlice_eq data m i)]
  exact flatten_chunks m n data hlen

theorem strippedPayload_mkChunkSym (enc : Encoder) (data : List Nat) (m n i : Nat)
    (hn : 2 ≤ n) :
    strippedPayload (mkChunkSym enc data m n i) = chunkSlice data m i := by
  have hn' : ¬n ≤ 1 := by omega
  cases h : enc (chunkFrame data m n i) <;>
    simp only [mkChunkSym, h] <;>
    simp [strippedPayload, hn', chunkFrame]

/-- The multi-part branch of `GenerateQRs`, fully unrolled: when the accepted
payload needs more than one chunk and the part count is within the cap, the
result is exactly one Symbol per chunk index, in order, with no break. -/
theorem GenerateQRs_multi (enc : Encoder) (data : List Nat) (max_length m n : Nat)
    (hmdef : m = max max_length MIN_CHUNK_SIZE)
    (hndef : n = (data.length + m - 1) / m)
    (h0 : data ≠ []) (hcap : data.length ≤ MAX_TOTAL_SIZE)
    (hlong : m < data.length) (hp : n ≤ MAX_QR_PARTS) :
    GenerateQRs enc data max_length = (List.range' 0 n).map (mkChunkSym enc data m n) := by
  have hm : 0 < m := by
    rw [hmdef]
    have : 0 < MIN_CHUNK_SIZE := by decide
    omega
  rw [GenerateQRs, if_neg (by push_neg; exact ⟨h0, Nat.not_lt.mp (by omega)⟩),
    if_neg (by omega), if_neg (by rw [← hmdef, ← hndef]; omega), ← hmdef, ← hndef]
  exact genLoop_eq_map enc data m n n 0
    (fun j _ hj => mul_lt_of_lt_ceilDiv data.length m j hm (by omega))

theorem m_pos (max_length m : Nat) (hmdef : m = max max_length MIN_CHUNK_SIZE) :
    0 < m := by
  have h := Nat.le_max_right max_length MIN_CHUNK_SIZE
  have h10 : MIN_CHUNK_SIZE = 10 := rfl
  omega

/-- The single-part branch of `GenerateQRs` when the encoder succeeds with a
positive size: exactly one Symbol, unframed, tagged `part = 1`,
`total_parts = 1`. -/
theorem GenerateQRs_single_some (enc : Encoder) (data : List Nat) (max_length : Nat)
    (h0 : data ≠ []) (hcap : data.length ≤ MAX_TOTAL_SIZE)
    (hshort : data.length ≤ max max_length MIN_CHUNK_SIZE)
    (mat : EncodedMatrix) (hmat : enc data = some mat) (hsz : 0 < mat.size) :
    GenerateQRs enc data max_length =
      [{ modules := mat.modules, size := mat.size, part := 1, total_parts := 1,
         frame := data }] := by
  have hgen : GenerateQR enc data
      = { modules := mat.modules, size := mat.size, frame := data } := by
    simp [GenerateQR, hmat]
  rw [GenerateQRs, if_neg (by push_neg; exact ⟨h0, by omega⟩), if_pos hshort, hgen,
    if_pos (by simpa using hsz)]

/-- The single-part branch of `GenerateQRs` when the encoder throws: the
degenerate Symbol is dropped and the result is empty (qr_generator.cpp:194). -/
theorem GenerateQRs_single_none (enc : Encoder) (data : List Nat) (max_length : Nat)
    (hshort : data.length ≤ max max_length MIN_CHUNK_SIZE)
    (hmat : enc data = none) :
    GenerateQRs enc data max_length = [] := by
  by_cases hrej : data = [] ∨ MAX_TOTAL_SIZE < data.length
  · rw [GenerateQRs, if_pos hrej]
  · rw [GenerateQRs, if_neg hrej, if_pos hshort]
    simp [GenerateQR, hmat]

theorem range_map_one_add (n : Nat) :
    (List.range' 0 n).map (fun i => 1 + i) = List.range' 1 n := by
  induction n with
  | zero => rfl
  | succ n ih =>
    rw [List.range'_1_concat, List.range'_1_concat, List.map_append, ih]
    simp

theorem range_map_add_one (n : Nat) :
    (List.range' 0 n).map (fun i => i + 1) = List.range' 1 n := by
  have h : (List.range' 0 n).map (fun i => i + 1)
      = (List.range' 0 n).map (fun i => 1 + i) :=
    List.map_congr_left (fun i _ => Nat.add_comm i 1)
  rw [h, range_map_one_add]

theorem getD_map_range' (f : Nat → QRCode) (n i : Nat) (hi : i < n) :
    (((List.range' 0 n).map f).getD i default) = f i := by
  rw [List.getD_eq_getElem _ _ (by simp [hi])]
  simp [List.getElem_range']

/-- C4: for every planning call, the produced Symbols carry part values
`1, 2, …, N` in order (so the multiset of `part` values is exactly `{1,…,N}`,
each once), and every produced Symbol reports `total_parts = N`, where `N` is
the number of produced Symbols.  This holds for every encoder, payload and
chunk length, failures included. -/
theorem c4_gapless_numbering (enc : Encoder) (data : List Nat) (max_length : Nat) :
    ((GenerateQRs enc data max_length).map QRCode.part)
        = List.range' 1 (GenerateQRs enc data max_length).length ∧
      ∀ q ∈ GenerateQRs enc data max_length,
        q.total_parts = (GenerateQRs enc data max_length).length := by
  by_cases h1 : data = [] ∨ MAX_TOTAL_SIZE < data.length
  · rw [GenerateQRs, if_pos h1]
    simp
  · push_neg at h1
    obtain ⟨h0, hcap'⟩ := h1
    by_cases h2 : data.length ≤ max max_length MIN_CHUNK_SIZE
    · cases hmat : enc data with
      | none =>
        rw [GenerateQRs_single_none enc data max_length h2 hmat]
        simp
      | some mat =>
        by_cases hsz : 0 < mat.size
        · rw [GenerateQRs_single_some enc data max_length h0 (by omega) h2 mat hmat hsz]
          simp
        · rw [GenerateQRs, if_neg (by push_neg; exact ⟨h0, by omega⟩), if_pos h2,
            if_neg (by simp [GenerateQR, hmat]; omega)]
          simp
    · push_neg at h2
      by_cases h3 : MAX_QR_PARTS <
          (data.length + max max_length MIN_CHUNK_SIZE - 1) / max max_length MIN_CHUNK_SIZE
      · rw [GenerateQRs, if_neg (by push_neg; exact ⟨h0, by omega⟩),
          if_neg (by omega), if_pos h3]
        simp
      · push_neg at h3
        have heq := GenerateQRs_multi enc data max_length
          (max max_length MIN_CHUNK_SIZE)
          ((data.length + max max_length MIN_CHUNK_SIZE - 1) / max max_length MIN_CHUNK_SIZE)
          rfl rfl h0 (by omega) h2 h3
        rw [heq]
        constructor
        · rw [List.map_map, List.length_map, List.length_range']
          have hparts : (List.range' 0
                ((data.length + max max_length MIN_CHUNK_SIZE - 1)
                  / max max_length MIN_CHUNK_SIZE)).map
                  (QRCode.part ∘ mkChunkSym enc data (max max_length MIN_CHUNK_SIZE)
                    ((data.length + max max_length MIN_CHUNK_SIZE - 1)
                      / max max_length MIN_CHUNK_SIZE))
              = (List.range' 0
                ((data.length + max max_length MIN_CHUNK_SIZE - 1)
                  / max max_length MIN_CHUNK_SIZE)).map (fun i => i + 1) :=
            List.map_congr_left (fun i _ => mkChunkSym_part enc data _ _ i)
          rw [hparts, range_map_add_one]
        · intro q hq
          rw [List.length_map, List.length_range']
          obtain ⟨i, _, rfl⟩ := List.mem_map.mp hq
          exact mkChunkSym_total enc data _ _ i

/-- C1 (counterexample): a payload the planner accepts (`[1]`, non-empty,
within `MAX_TOTAL_SIZE`, needing one chunk) whose single symbol encode fails
produces an *empty* result — the positional entry is dropped, not replaced by
a `size = 0` sentinel carrying `part = 1`, `total_parts = 1`. -/
theorem c1_single_part_drop_counterexample :
    ([1] ≠ ([] : List Nat)) ∧ [1].length ≤ MAX_TOTAL_SIZE ∧
      encFail [1] = none ∧ GenerateQRs encFail [1] 100 = [] := by
  refine ⟨by decide, by decide, rfl, ?_⟩
  rw [GenerateQRs]
  decide

/-- C1 (amended): in the multi-part path, every chunk whose symbol encode fails
still yields a Symbol with `size = 0`, an empty grid and the `part` /
`total_parts` values it would otherwise have had, and no positional entry is
dropped; in the single-part path (`data.length ≤` clamped chunk length), an
encode failure instead yields an empty result. -/
theorem c1_sentinel_degradation (enc : Encoder) (data : List Nat) (max_length m n : Nat)
    (hmdef : m = max max_length MIN_CHUNK_SIZE)
    (hndef : n = (data.length + m - 1) / m)
    (h0 : data ≠ []) (hcap : data.length ≤ MAX_TOTAL_SIZE) (hp : n ≤ MAX_QR_PARTS) :
    (m < data.length →
      (GenerateQRs enc data max_length).length = n ∧
      ∀ i, i < n →
        ((GenerateQRs enc data max_length).getD i default).part = i + 1 ∧
        ((GenerateQRs enc data max_length).getD i default).total_parts = n ∧
        (enc (chunkFrame data m n i) = none →
          ((GenerateQRs enc data max_length).getD i default).size = 0 ∧
          ((GenerateQRs enc data max_length).getD i default).modules = [])) ∧
    (data.length ≤ m → enc data = none → GenerateQRs enc data max_length = []) := by
  constructor
  · intro hlong
    rw [GenerateQRs_multi enc data max_length m n hmdef hndef h0 hcap hlong hp]
    refine ⟨by simp, ?_⟩
    intro i hi
    rw [getD_map_range' _ n i hi]
    refine ⟨mkChunkSym_part enc data m n i, mkChunkSym_total enc data m n i, ?_⟩
    intro hfail
    exact mkChunkSym_fail enc data m n i hfail
  · intro hshort hfail
    exact GenerateQRs_single_none enc data max_length (hmdef ▸ hshort) hfail

theorem c1_sentinel_degradation_witness :
    ((GenerateQRs encFail (List.replicate 11 0) 10).length = 2 ∧
      ((GenerateQRs encFail (List.replicate 11 0) 10).getD 1 default).part = 2 ∧
      ((GenerateQRs encFail (List.replicate 11 0) 10).getD 1 default).total_parts = 2 ∧
      ((GenerateQRs encFail (List.replicate 11 0) 10).getD 1 default).size = 0 ∧
      ((GenerateQRs encFail (List.replicate 11 0) 10).getD 1 default).modules = []) ∧
      GenerateQRs encFail [5] 20 = [] := by
  have h1 := c1_sentinel_degradation encFail (List.replicate 11 0) 10 10 2
    (by decide) (by simp) (by simp) (by simp [MAX_TOTAL_SIZE]) (by decide)
  have h2 := c1_sentinel_degradation encFail [5] 20 20 1
    (by decide) (by decide) (by decide) (by decide) (by decide)
  have hm1 := h1.1 (by simp)
  have hi1 := hm1.2 1 (by decide)
  have hf1 := hi1.2.2 rfl
  exact ⟨⟨hm1.1, hi1.1, hi1.2.1, hf1.1, hf1.2⟩, h2.2 (by decide) rfl⟩

/-- C2 (counterexample): a 10001-byte payload is within `MAX_TOTAL_SIZE`, yet
with chunk length 10 the planner computes 1001 parts, exceeds `MAX_QR_PARTS`,
and produces *no* Symbols — so the concatenation of header-stripped payloads is
empty and does not reproduce the payload, even with an always-succeeding
encoder. -/
theorem c2_round_trip_counterexample :
    (List.replicate 10001 (0 : Nat)).length ≤ MAX_TOTAL_SIZE ∧
      ((GenerateQRs encSome (List.replicate 10001 (0 : Nat)) 10).map
          strippedPayload).flatten ≠ List.replicate 10001 (0 : Nat) := by
  constructor
  · rw [List.length_replicate]
    norm_num [MAX_TOTAL_SIZE]
  · have hres : GenerateQRs encSome (List.replicate 10001 (0 : Nat)) 10 = [] := by
      rw [GenerateQRs]
      rw [if_neg (by
        push_neg
        refine ⟨?_, ?_⟩
        · intro h
          have hlen := congrArg List.length h
          rw [List.length_replicate] at hlen
          simp at hlen
        · rw [List.length_replicate]
          norm_num [MAX_TOTAL_SIZE])]
      rw [if_neg (by rw [List.length_replicate]; norm_num [MIN_CHUNK_SIZE])]
      rw [if_pos (by rw [List.length_replicate]; norm_num [MIN_CHUNK_SIZE, MAX_QR_PARTS])]
    rw [hres]
    simp only [List.map_nil, List.flatten_nil]
    intro h
    have hlen := congrArg List.length h
    rw [List.length_replicate] at hlen
    simp at hlen

/-- C2 (amended): for every payload within `MAX_TOTAL_SIZE` whose computed part
count `ceil(length / m)` (with `m` the clamped chunk length) is within
`MAX_QR_PARTS`, and for every encoder that succeeds with positive size on every
input, concatenating the header-stripped payload bytes of all produced Symbols
in ascending `part` order reproduces the payload exactly. -/
theorem c2_round_trip (enc : Encoder) (data : List Nat) (max_length m n : Nat)
    (hmdef : m = max max_length MIN_CHUNK_SIZE)
    (hndef : n = (data.length + m - 1) / m)
    (hcap : data.length ≤ MAX_TOTAL_SIZE) (hp : n ≤ MAX_QR_PARTS)
    (henc : ∀ b, ∃ mat, enc b = some mat ∧ 0 < mat.size) :
    ((GenerateQRs enc data max_length).map strippedPayload).flatten = data := by
  have hm : 0 < m := m_pos max_length m hmdef
  by_cases h0 : data = []
  · subst h0
    rw [GenerateQRs, if_pos (Or.inl rfl)]
    rfl
  · by_cases hshort : data.length ≤ m
    · obtain ⟨mat, hmat, hsz⟩ := henc data
      rw [GenerateQRs_single_some enc data max_length h0 hcap (hmdef ▸ hshort)
        mat hmat hsz]
      simp [strippedPayload]
    · push_neg at hshort
      rw [GenerateQRs_multi enc data max_length m n hmdef hndef h0 hcap hshort hp,
        List.map_map]
      have h2n : 2 ≤ n := hndef ▸ two_le_ceilDiv data.length m hm hshort
      have hstrip : (List.range' 0 n).map
            (strippedPayload ∘ mkChunkSym enc data m n)
          = (List.range' 0 n).map (fun i => chunkSlice data m i) :=
        List.map_congr_left
          (fun i _ => strippedPayload_mkChunkSym enc data m n i h2n)
      rw [hstrip, ← List.range_eq_range']
      exact chunkSlices_flatten data m n
        (hndef ▸ le_ceilDiv_mul data.length m hm)

theorem c2_round_trip_witness :
    ((GenerateQRs encSome [1, 2, 3] 100).map strippedPayload).flatten = [1, 2, 3] :=
  c2_round_trip encSome [1, 2, 3] 100 100 1 (by decide) (by decide) (by decide)
    (by decide) (fun b => ⟨⟨1, [[true]]⟩, rfl, by decide⟩)

/-- C3: with `maxChunkLen = 100`, a 100-byte payload yields exactly one Symbol
tagged `part = 1`, `total_parts = 1` (provided its encode succeeds with
positive size), and a 101-byte payload yields exactly two Symbols whose second
frame carries, after the positional header, exactly the one remaining payload
byte. -/
theorem c3_boundary (enc : Encoder) (data100 data101 : List Nat)
    (h100 : data100.length = 100) (h101 : data101.length = 101)
    (mat : EncodedMatrix) (hmat : enc data100 = some mat) (hsz : 0 < mat.size) :
    (GenerateQRs enc data100 100).length = 1 ∧
      ((GenerateQRs enc data100 100).getD 0 default).part = 1 ∧
      ((GenerateQRs enc data100 100).getD 0 default).total_parts = 1 ∧
      (GenerateQRs enc data101 100).length = 2 ∧
      ((GenerateQRs enc data101 100).getD 1 default).frame
        = headerBytes 2 2 ++ data101.drop 100 ∧
      (data101.drop 100).length = 1 := by
  have h0 : data100 ≠ [] := by
    intro h
    rw [h] at h100
    simp at h100
  have h0' : data101 ≠ [] := by
    intro h
    rw [h] at h101
    simp at h101
  have hsingle := GenerateQRs_single_some enc data100 100 h0
    (by rw [h100]; norm_num [MAX_TOTAL_SIZE]) (by rw [h100]; decide) mat hmat hsz
  have hmulti := GenerateQRs_multi enc data101 100 100 2
    (by decide) (by rw [h101]) h0'
    (by rw [h101]; norm_num [MAX_TOTAL_SIZE]) (by rw [h101]; decide) (by decide)
  refine ⟨?_, ?_, ?_, ?_, ?_, ?_⟩
  · rw [hsingle]
    rfl
  · rw [hsingle]
    rfl
  · rw [hsingle]
    rfl
  · rw [hmulti]
    simp
  · rw [hmulti, getD_map_range' _ 2 1 (by decide), mkChunkSym_frame, chunkFrame]
    congr 1
    rw [chunkSlice_eq, Nat.one_mul]
    apply List.take_of_length_le
    simp [h101]
  · simp [h101]

theorem c3_boundary_witness :
    (GenerateQRs encSome (List.replicate 100 9) 100).length = 1 ∧
      ((GenerateQRs encSome (List.replicate 100 9) 100).getD 0 default).part = 1 ∧
      ((GenerateQRs encSome (List.replicate 100 9) 100).getD 0 default).total_parts = 1 ∧
      (GenerateQRs encSome (List.replicate 101 9) 100).length = 2 ∧
      ((GenerateQRs encSome (List.replicate 101 9) 100).getD 1 default).frame
        = headerBytes 2 2 ++ (List.replicate 101 9).drop 100 ∧
      ((List.replicate 101 (9 : Nat)).drop 100).length = 1 :=
  c3_boundary encSome (List.replicate 100 9) (List.replicate 101 9)
    (by simp) (by simp) ⟨1, [[true]]⟩ rfl (by decide)

/-- C5: with an encoder that always succeeds with positive size, the planner
produces zero Symbols exactly when the payload is empty, exceeds
`MAX_TOTAL_SIZE`, or its computed part count `ceil(length / m)` (with `m` the
clamped chunk length, as computed at qr_generator.cpp:202) exceeds
`MAX_QR_PARTS`; it never returns a truncated non-empty prefix in those cases. -/
theorem c5_empty_result_iff (enc : Encoder) (data : List Nat) (max_length m n : Nat)
    (hmdef : m = max max_length MIN_CHUNK_SIZE)
    (hndef : n = (data.length + m - 1) / m)
    (henc : ∀ b, ∃ mat, enc b = some mat ∧ 0 < mat.size) :
    (GenerateQRs enc data max_length = [] ↔
      (data = [] ∨ MAX_TOTAL_SIZE < data.length ∨ MAX_QR_PARTS < n)) := by
  have hm : 0 < m := m_pos max_length m hmdef
  have hmq : MAX_QR_PARTS = 1000 := rfl
  constructor
  · intro h
    by_contra hc
    push_neg at hc
    obtain ⟨h0, hcap, hp⟩ := hc
    by_cases hshort : data.length ≤ m
    · obtain ⟨mat, hmat, hsz⟩ := henc data
      rw [GenerateQRs_single_some enc data max_length h0 hcap (hmdef ▸ hshort)
        mat hmat hsz] at h
      simp at h
    · push_neg at hshort
      rw [GenerateQRs_multi enc data max_length m n hmdef hndef h0 hcap hshort
        (by omega)] at h
      have hn1 : 1 ≤ n := hndef ▸ one_le_ceilDiv data.length m hm
        (List.length_pos.mpr h0)
      have hnil : n = 0 := by simpa using h
      omega
  · intro h
    rcases h with h | h | h
    · rw [GenerateQRs, if_pos (Or.inl h)]
    · rw [GenerateQRs, if_pos (Or.inr h)]
    · by_cases h0 : data = []
      · rw [GenerateQRs, if_pos (Or.inl h0)]
      · by_cases hbig : MAX_TOTAL_SIZE < data.length
        · rw [GenerateQRs, if_pos (Or.inr hbig)]
        · push_neg at hbig
          have hlong : m < data.length := by
            by_contra hle
            push_neg at hle
            have hlt : (data.length + m - 1) / m < 2 := by
              rw [Nat.div_lt_iff_lt_mul hm]
              omega
            omega
          rw [GenerateQRs, if_neg (by push_neg; exact ⟨h0, hbig⟩),
            if_neg (by omega), if_pos (by rw [← hmdef, ← hndef]; omega)]

theorem c5_empty_result_iff_witness :
    GenerateQRs encSome [7] 0 = [] ↔
      ([7] = ([] : List Nat) ∨ MAX_TOTAL_SIZE < [7].length ∨ MAX_QR_PARTS < 1) :=
  c5_empty_result_iff encSome [7] 0 10 1 (by decide) (by decide)
    (fun b => ⟨⟨1, [[true]]⟩, rfl, by decide⟩)

theorem pairBytes_hex : ∀ (s : List Char), (∀ c ∈ s, isHexDigitC c = true) →
    s.length % 2 = 0 → (pairBytes s).isSome = true
  | [], _, _ => rfl
  | [a], _, he => by simp at he
  | a :: b :: rest, hh, he => by
    have ha : isHexDigitC a = true := hh a (by simp)
    have ih : (pairBytes rest).isSome = true :=
      pairBytes_hex rest (fun c hc => hh c (by simp [hc]))
        (by simp only [List.length_cons] at he ⊢; omega)
    obtain ⟨vs, hvs⟩ := Option.isSome_iff_exists.mp ih
    have hsp : stoul16_pair a b
        = some (if isHexDigitC b then (hexDigitVal a * 16 + hexDigitVal b) % 256
                else hexDigitVal a) := by
      rw [stoul16_pair, if_pos ha]
    simp [pairBytes, hsp, hvs]

/-- On a string of hexadecimal digits of even length, `hex_to_bytes` performs
no prefix stripping ('x' is not a hex digit, so no such string starts with
`"0x"`) and runs the conversion loop directly. -/
theorem hex_to_bytes_eq_pairBytes (s : List Char)
    (hhex : ∀ c ∈ s, isHexDigitC c = true) (heven : s.length % 2 = 0) :
    hex_to_bytes s = pairBytes s := by
  by_cases hs : s = []
  · subst hs
    rfl
  · have hx : 'x' ∉ s := by
      intro hmem
      exact absurd (hhex 'x' hmem) (by decide)
    have hstrip : ¬(2 ≤ s.length ∧ s.take 2 = ['0', 'x']) := by
      rintro ⟨-, htake⟩
      exact hx (List.take_subset 2 s (by rw [htake]; simp))
    rw [hex_to_bytes, if_neg hs, if_neg hstrip, if_neg (by omega)]

/-- C10: `hex_to_bytes` maps the empty string, and exactly `"0x"`, to an empty
byte vector without error: the empty input is not treated as malformed. -/
theorem c10_empty_inputs :
    hex_to_bytes [] = some [] ∧ hex_to_bytes ['0', 'x'] = some [] := by decide

/-- C6 (code divergence): `hex_to_bytes` does *not* fail on every non-hex
character.  Because each byte pair goes through `stoul`, a non-hex character in
the second position of a pair is silently ignored: `"0g"` converts to the
single byte 0 and `"4z"` to the byte 4, the malformed tail partially converted
instead of raising the hard error the spec requires. -/
theorem c6_nonhex_silently_converted :
    isHexDigitC 'g' = false ∧ hex_to_bytes ['0', 'g'] = some [0] ∧
      isHexDigitC 'z' = false ∧ hex_to_bytes ['4', 'z'] = some [4] := by decide

/-- C7 (counterexample): for the valid even-length hex string `"ab"`, the
`"0X"`-prefixed form does not convert to the same bytes as the bare form: the
uppercase prefix is not stripped (only lowercase `"0x"` is compared at
qr_generator.cpp:17), and the pair `"0X"` is parsed by `stoul` as the value 0. -/
theorem c7_upper_prefix_counterexample :
    (∀ c ∈ ['a', 'b'], isHexDigitC c = true) ∧ ['a', 'b'].length % 2 = 0 ∧
      hex_to_bytes ['0', 'X', 'a', 'b'] ≠ hex_to_bytes ['a', 'b'] := by decide

/-- C7 (amended): for every valid even-length hex digit string `s`, the
lowercase-prefixed form `"0x" + s` and the bare form succeed with the same byte
sequence, while the uppercase-prefixed form `"0X" + s` is treated as data: it
succeeds but yields a spurious leading 0 byte. -/
theorem c7_lowercase_prefix_only (s : List Char)
    (hhex : ∀ c ∈ s, isHexDigitC c = true) (heven : s.length % 2 = 0) :
    hex_to_bytes ('0' :: 'x' :: s) = hex_to_bytes s ∧
      (hex_to_bytes s).isSome = true ∧
      hex_to_bytes ('0' :: 'X' :: s) = (hex_to_bytes s).map (fun bs => 0 :: bs) := by
  have hpb := hex_to_bytes_eq_pairBytes s hhex heven
  have hsome := pairBytes_hex s hhex heven
  refine ⟨?_, ?_, ?_⟩
  · rw [hex_to_bytes, if_neg (by simp),
      if_pos ⟨by simp, rfl⟩, if_neg (by simp; omega)]
    exact hpb.symm
  · rw [hpb]
    exact hsome
  · rw [hex_to_bytes, if_neg (by simp), if_neg (by rintro ⟨-, ht⟩; simp at ht),
      if_neg (by simp; omega)]
    rw [hpb]
    obtain ⟨vs, hvs⟩ := Option.isSome_iff_exists.mp hsome
    have hsx : stoul16_pair '0' 'X' = some 0 := by decide
    simp [pairBytes, hsx, hvs]

theorem c7_lowercase_prefix_only_witness :
    hex_to_bytes ['0', 'x', 'a', 'b'] = hex_to_bytes ['a', 'b'] ∧
      (hex_to_bytes ['a', 'b']).isSome = true ∧
      hex_to_bytes ['0', 'X', 'a', 'b'] =
        (hex_to_bytes ['a', 'b']).map (fun bs => 0 :: bs) :=
  c7_lowercase_prefix_only ['a', 'b'] (by decide) (by decide)
